import Mathlib

/-!
Shallow embedding of the similarity repository's distance kernels
(`tensorflow_similarity/distances.py`), the recall@k retrieval metric
(`tensorflow_similarity/retrieval_metrics/recall_at_k.py`), and the
indexer store removal operation (modelled from the spec, since the
indexer implementation itself is not part of the sources).

Vectors are lists of rationals; real numbers appear only where the code
takes a square root.  Tensor operations are translated pointwise:
`tf.linalg.matmul(E, E, transpose_b=True)` has entry `[i][j]` equal to
the dot product of rows `i` and `j`, `tf.reduce_sum(axis=1)` is a row
sum, and so on.
-/

deriving instance DecidableEq for Except

namespace Similarity

/-- Dot product of two vectors (`tf.linalg.matmul` entry). Mirrors the
elementwise multiply-and-sum; on unequal lengths it truncates to the
shorter vector. -/
def dot (x y : List ℚ) : ℚ := (List.zipWith (· * ·) x y).sum

/-- Squared L2 norm of a vector: `tf.reduce_sum(tf.math.square(x))`. -/
def sqnorm (x : List ℚ) : ℚ := dot x x

/-- The squared-distance expansion `||x||^2 - 2*dot(x,y) + ||y||^2`
shared by `EuclideanDistance.call` and `SquaredEuclideanDistance.call`. -/
def sqExpansion (x y : List ℚ) : ℚ := sqnorm x - 2 * dot x y + sqnorm y

/-- The numeric-stability threshold `1e-18` from `EuclideanDistance.call`. -/
def eps : ℚ := 1 / 10 ^ 18

/-- `InnerProductSimilarity.call`: `matmul(E, E, transpose_b=True)`
followed by `reduce_sum(axis=1, keepdims=True)` — each row of the
result is the single-element list holding the row sum of pairwise
inner products. -/
def innerProduct_call (emb : List (List ℚ)) : List (List ℚ) :=
  emb.map (fun ei => [(emb.map (fun ek => dot ei ek)).sum])

/-- `CosineDistance.call`: `max(1 - matmul(E, E, transpose_b=True), 0)`. -/
def cosine_call (emb : List (List ℚ)) : List (List ℚ) :=
  emb.map (fun ei => emb.map (fun ej => max (1 - dot ei ej) 0))

/-- `SquaredEuclideanDistance.call`: the squared-distance expansion
clamped below at 0. -/
def squaredEuclidean_call (emb : List (List ℚ)) : List (List ℚ) :=
  emb.map (fun ei => emb.map (fun ej => max (sqExpansion ei ej) 0))

/-- `ManhattanDistance.call`: 1-norm of the elementwise differences. -/
def manhattan_call (emb : List (List ℚ)) : List (List ℚ) :=
  emb.map (fun ei =>
    emb.map (fun ej => (List.zipWith (fun a b => |a - b|) ei ej).sum))

/-- `EuclideanDistance.call`: `sqrt(max(d, 1e-18)) * cast(d >= 1e-18)`,
where `d` is the squared-distance expansion. -/
noncomputable def euclidean_call (emb : List (List ℚ)) : List (List ℝ) :=
  emb.map (fun ei =>
    emb.map (fun ej =>
      Real.sqrt ((max (sqExpansion ei ej) eps : ℚ) : ℝ) *
        (if eps ≤ sqExpansion ei ej then (1 : ℝ) else 0)))

/-- The pairwise cosine distance between two vectors, per the spec:
`max(0, 1 - dot(e_i, e_j))`. -/
def cosinePair (x y : List ℚ) : ℚ := max (1 - dot x y) 0

/-- The pairwise squared Euclidean distance between two vectors, per the
spec: the expansion clamped to be at least 0. -/
def squaredEuclideanPair (x y : List ℚ) : ℚ := max (sqExpansion x y) 0

/-- The pairwise Manhattan distance between two vectors, per the spec:
sum of absolute elementwise differences. -/
def manhattanPair (x y : List ℚ) : ℚ :=
  (List.zipWith (fun a b => |a - b|) x y).sum

/-- The pairwise Euclidean distance with the `1e-18` stability policy. -/
noncomputable def euclideanPair (x y : List ℚ) : ℝ :=
  Real.sqrt ((max (sqExpansion x y) eps : ℚ) : ℝ) *
    (if eps ≤ sqExpansion x y then (1 : ℝ) else 0)

/-- A distance kernel's registry data: its canonical name and its list of
aliases (the `Distance` base class's constructor arguments). -/
structure Distance where
  name : String
  aliases : List String
  deriving DecidableEq, Repr

/-- `InnerProductSimilarity.__init__`. -/
def innerProductSimilarity : Distance := ⟨"inner_product", ["ip"]⟩

/-- `EuclideanDistance.__init__`. -/
def euclideanDistance : Distance := ⟨"euclidean", ["l2", "pythagorean"]⟩

/-- `SquaredEuclideanDistance.__init__`. -/
def squaredEuclideanDistance : Distance := ⟨"squared_euclidean", ["sql2", "sqeuclidean"]⟩

/-- `ManhattanDistance.__init__`. -/
def manhattanDistance : Distance := ⟨"manhattan", ["l1", "taxicab"]⟩

/-- `CosineDistance.__init__` (no aliases). -/
def cosineDistance : Distance := ⟨"cosine", []⟩

/-- The `DISTANCES` registry list, in source order. -/
def DISTANCES : List Distance :=
  [innerProductSimilarity, euclideanDistance, squaredEuclideanDistance,
   manhattanDistance, cosineDistance]

/-- The `mapping` dict built by `distance_canonicalizer`: every canonical
name maps to itself and every alias maps to its kernel's canonical name.
The python dict has no duplicate keys, so an association list looked up
from the front is equivalent. -/
def mapping : List (String × String) :=
  (DISTANCES.map (fun d =>
    (d.name, d.name) :: d.aliases.map (fun a => (a, d.name)))).flatten

/-- The `name2fn` dict built by `distance_canonicalizer`. -/
def name2fn : List (String × Distance) := DISTANCES.map (fun d => (d.name, d))

/-- Python's `str.lower()` restricted to the ASCII case mapping, written
over the character list so it computes by structural recursion. -/
def pyLower (s : String) : String := ⟨s.data.map Char.toLower⟩

/-- Python's `str.strip()`: drop whitespace from both ends. -/
def pyStrip (s : String) : String :=
  ⟨((s.data.dropWhile Char.isWhitespace).reverse.dropWhile
      Char.isWhitespace).reverse⟩

/-- The argument of `distance_canonicalizer`: a `Distance` instance, a
string, or a value of any other type (the final `raise` branch). -/
inductive UserDistance where
  | inst (d : Distance)
  | str (s : String)
  | other
  deriving DecidableEq

/-- `distance_canonicalizer`: returns `Distance` instances unchanged,
lower-cases and strips strings and resolves them through the alias
table, and raises for unknown names or other types.  (The inner `none`
branch is unreachable: every value of `mapping` is a key of `name2fn`.) -/
def distance_canonicalizer : UserDistance → Except String Distance
  | .inst d => Except.ok d
  | .str s =>
    match List.lookup (pyStrip (pyLower s)) mapping with
    | some canonical =>
      match List.lookup canonical name2fn with
      | some d => Except.ok d
      | none => Except.error "Metric not supported by the framework"
    | none => Except.error "Metric not supported by the framework"
  | .other =>
    Except.error
      "Unknown distance: must either be a MetricDistance or a known distance function"

/-- Arithmetic mean of a list of rationals (`tf.math.reduce_mean`); the
empty mean, a NaN in tensorflow, is harmlessly 0 here (division by zero). -/
def qmean (l : List ℚ) : ℚ := l.sum / l.length

/-- `tf.unique(labels)[0]`: the distinct labels in order of first
appearance. -/
def uniqueLabels (l : List ℤ) : List ℤ :=
  l.foldl (fun acc a => if a ∈ acc then acc else acc ++ [a]) []

/-- `RecallAtK.compute`: slice the first `k` mask columns, reduce with
`any` per query, cast to {0,1}, then aggregate according to `average`
("micro": global mean; "macro": per-label means summed and divided by
the number of distinct labels; anything else raises). -/
def RecallAtK_compute (k : Nat) (average : String) (query_labels : List ℤ)
    (match_mask : List (List Bool)) : Except String ℚ :=
  let match_indicator : List ℚ :=
    match_mask.map (fun row => if (row.take k).any id then 1 else 0)
  if average = "micro" then
    Except.ok (qmean match_indicator)
  else if average = "macro" then
    let class_labels := uniqueLabels query_labels
    let per_class_metrics : ℚ :=
      (class_labels.map (fun label =>
        qmean (((query_labels.zip match_indicator).filter
          (fun p => p.1 = label)).map Prod.snd))).sum
    Except.ok (per_class_metrics / class_labels.length)
  else
    Except.error (average ++ " is not a supported average option")

/-- The number of queries whose first `k` mask entries contain a match. -/
def hitCount (k : Nat) (match_mask : List (List Bool)) : Nat :=
  (match_mask.filter (fun row => (row.take k).any id)).length

/-- Spec formulation of the per-label ("per-class") hit rate: the mean of
the {0,1} per-query indicator over the queries carrying a given label. -/
def perLabelHitRate (k : Nat) (label : ℤ) (query_labels : List ℤ)
    (match_mask : List (List Bool)) : ℚ :=
  qmean (((query_labels.zip (match_mask.map
      (fun row => if (row.take k).any id then (1 : ℚ) else 0))).filter
    (fun p => p.1 = label)).map Prod.snd)

/-- The indexer's store: the parallel `dataset_examples` and
`dataset_labels` sequences. -/
structure Store where
  examples : List (List ℚ)
  labels : List ℤ
  deriving DecidableEq

/-- Modelled from the spec: `Indexer.remove(position)` — the indexer
implementation is not among the sources, only its unit tests are.  Per
the spec it deletes position `i` from examples and labels together,
shifting all later positions down by one, and is valid only for
`0 <= position < size` (otherwise `IndexOutOfRangeError`). -/
def Indexer_remove (s : Store) (pos : Nat) : Except String Store :=
  if pos < s.labels.length then
    Except.ok ⟨s.examples.eraseIdx pos, s.labels.eraseIdx pos⟩
  else
    Except.error "IndexOutOfRangeError"

/-! ### Helper lemmas -/

/-- An entry read with `getD`/`getD` defaults is nonnegative as soon as
every entry of the matrix is. -/
theorem matrix_getD_nonneg {α : Type _} [Zero α] [Preorder α]
    (L : List (List α)) (h : ∀ r ∈ L, ∀ v ∈ r, 0 ≤ v) (i j : Nat) :
    0 ≤ (L.getD i []).getD j 0 := by
  rcases hrow : L[i]? with _ | r
  · simp [List.getD_eq_getElem?_getD, hrow]
  · rcases hv : r[j]? with _ | v
    · simp [List.getD_eq_getElem?_getD, hrow, hv]
    · have hr : r ∈ L := List.getElem?_mem hrow
      have hvr : v ∈ r := List.getElem?_mem hv
      simpa [List.getD_eq_getElem?_getD, hrow, hv] using h r hr v hvr

/-- A sum of absolute differences is nonnegative. -/
theorem zipWith_abs_sum_nonneg (x y : List ℚ) :
    0 ≤ (List.zipWith (fun a b => |a - b|) x y).sum := by
  induction x generalizing y with
  | nil => simp
  | cons a x ih =>
    cases y with
    | nil => simp
    | cons b y =>
      simp only [List.zipWith_cons_cons, List.sum_cons]
      exact add_nonneg (abs_nonneg _) (ih y)

/-- On equal-length vectors the expansion
`||x||^2 - 2*dot(x,y) + ||y||^2` is the squared L2 distance. -/
theorem sqExpansion_eq_sum_sq (x y : List ℚ) (h : x.length = y.length) :
    sqExpansion x y = (List.zipWith (fun a b => (a - b) ^ 2) x y).sum := by
  induction x generalizing y with
  | nil =>
    cases y with
    | nil => simp [sqExpansion, sqnorm, dot]
    | cons b y => simp at h
  | cons a x ih =>
    cases y with
    | nil => simp at h
    | cons b y =>
      simp only [List.length_cons, Nat.succ.injEq] at h
      have := ih y h
      simp only [sqExpansion, sqnorm, dot, List.zipWith_cons_cons,
        List.sum_cons] at *
      ring_nf
      ring_nf at this
      linarith

/-- Summing a function mapped over a list equals summing it over the
index range, reading entries with `getD`. -/
theorem map_sum_eq_range_sum {M : Type _} [AddCommMonoid M]
    (f : List ℚ → M) (l : List (List ℚ)) :
    (l.map f).sum = ∑ k ∈ Finset.range l.length, f (l.getD k []) := by
  induction l with
  | nil => simp
  | cons a l ih =>
    rw [List.map_cons, List.sum_cons, List.length_cons,
      Finset.sum_range_succ', ih]
    simp [add_comm]

/-- The {0,1} indicator sum over a list of rows counts the rows that
satisfy the predicate. -/
theorem indicator_sum_eq_count (p : List Bool → Bool)
    (mm : List (List Bool)) :
    (mm.map (fun row => if p row then (1 : ℚ) else 0)).sum =
      ((mm.filter p).length : ℚ) := by
  induction mm with
  | nil => simp
  | cons r mm ih =>
    by_cases hp : p r <;> simp [List.filter_cons, hp, ih]
    ring


/-- The keys of `mapping` are exactly the canonical names and aliases. -/
theorem mem_mapping_keys_iff (key : String) :
    key ∈ mapping.map Prod.fst ↔
      ∃ d ∈ DISTANCES, key = d.name ∨ key ∈ d.aliases := by
  simp only [mapping, DISTANCES, innerProductSimilarity, euclideanDistance,
    squaredEuclideanDistance, manhattanDistance, cosineDistance]
  simp
  tauto

/-- Every value stored in `mapping` is a key of `name2fn`. -/
theorem mapping_values_in_name2fn :
    ∀ p ∈ mapping, (List.lookup p.2 name2fn).isSome := by decide

/-- C6 helper: the string branch fails exactly when the normalized key is
neither a canonical name nor an alias. -/
theorem canonicalizer_str_error_iff (s : String) :
    (∃ e, distance_canonicalizer (.str s) = Except.error e) ↔
      ∀ d ∈ DISTANCES, pyStrip (pyLower s) ≠ d.name ∧
        pyStrip (pyLower s) ∉ d.aliases := by
  rcases hlk : List.lookup (pyStrip (pyLower s)) mapping with _ | c
  · have hlk' := List.lookup_eq_none_iff.mp hlk
    constructor
    · intro _ d hd
      constructor
      · intro hname
        have hmem : (d.name, d.name) ∈ mapping := by
          simp only [mapping, List.mem_flatten]
          exact ⟨_, List.mem_map_of_mem _ hd, List.mem_cons_self _ _⟩
        have hb := hlk' _ hmem
        rw [hname] at hb
        simp at hb
      · intro halias
        have hmem : (pyStrip (pyLower s), d.name) ∈ mapping := by
          simp only [mapping, List.mem_flatten]
          refine ⟨_, List.mem_map_of_mem _ hd, ?_⟩
          exact List.mem_cons_of_mem _ (List.mem_map_of_mem _ halias)
        have hb := hlk' _ hmem
        simp at hb
    · intro _
      refine ⟨"Metric not supported by the framework", ?_⟩
      simp [distance_canonicalizer, hlk]
  · have hmem : (pyStrip (pyLower s), c) ∈ mapping := by
      rcases List.lookup_eq_some_iff.mp hlk with ⟨l₁, l₂, hsplit, -⟩
      rw [hsplit]; simp
    have hsome := mapping_values_in_name2fn _ hmem
    rcases Option.isSome_iff_exists.mp hsome with ⟨d, hd⟩
    constructor
    · rintro ⟨e, he⟩
      exfalso
      simp only [distance_canonicalizer, hlk, hd] at he
      exact Except.noConfusion he
    · intro h
      exfalso
      have hkeys : ∃ d ∈ DISTANCES,
          pyStrip (pyLower s) = d.name ∨ pyStrip (pyLower s) ∈ d.aliases :=
        (mem_mapping_keys_iff _).mp (List.mem_map_of_mem Prod.fst hmem)
      rcases hkeys with ⟨d', hd', hor⟩
      rcases h d' hd' with ⟨hne, hnmem⟩
      rcases hor with h1 | h2
      · exact hne h1
      · exact hnmem h2


/-- C6: the distance lookup lower-cases and trims string input and maps
it through the alias table, so `resolve("l2")`, `resolve("L2")` and
`resolve("euclidean")` all return the euclidean kernel; it fails with the
unsupported-metric error exactly for strings whose normalization is
neither a canonical name nor an alias, and for arguments that are neither
a string nor a kernel instance. -/
theorem distance_canonicalizer_alias_resolution :
    distance_canonicalizer (.str "l2") = Except.ok euclideanDistance ∧
    distance_canonicalizer (.str "L2") = Except.ok euclideanDistance ∧
    distance_canonicalizer (.str "euclidean") = Except.ok euclideanDistance ∧
    distance_canonicalizer (.str "not_a_metric") =
      Except.error "Metric not supported by the framework" ∧
    distance_canonicalizer .other =
      Except.error
        "Unknown distance: must either be a MetricDistance or a known distance function" ∧
    ∀ s : String,
      (∃ e, distance_canonicalizer (.str s) = Except.error e) ↔
        ∀ d ∈ DISTANCES, pyStrip (pyLower s) ≠ d.name ∧
          pyStrip (pyLower s) ∉ d.aliases := by
  refine ⟨by decide, by decide, by decide, by decide, rfl, ?_⟩
  exact canonicalizer_str_error_iff

/-- C9: `RecallAtK.compute` raises the unsupported-average-mode error if
and only if the configured average is neither "micro" nor "macro". -/
theorem recall_unsupported_average_iff (k : Nat) (average : String)
    (query_labels : List ℤ) (match_mask : List (List Bool)) :
    (∃ e, RecallAtK_compute k average query_labels match_mask =
      Except.error e) ↔ average ≠ "micro" ∧ average ≠ "macro" := by
  by_cases h1 : average = "micro"
  · simp [RecallAtK_compute, h1]
  · by_cases h2 : average = "macro"
    · simp [RecallAtK_compute, h1, h2]
    · simp [RecallAtK_compute, h1, h2]

/-- C10: `distance_canonicalizer` returns any `Distance` instance
unchanged, without checking registry membership; hence resolution is
idempotent on every input on which it succeeds. -/
theorem distance_canonicalizer_idempotent :
    (∀ d : Distance, distance_canonicalizer (.inst d) = Except.ok d) ∧
    ∀ (u : UserDistance) (d : Distance),
      distance_canonicalizer u = Except.ok d →
      distance_canonicalizer (.inst d) = Except.ok d := by
  exact ⟨fun d => rfl, fun u d _ => rfl⟩

/-- Witness for C10 at the concrete input `resolve("l2")`. -/
theorem distance_canonicalizer_idempotent_witness :
    distance_canonicalizer (.inst euclideanDistance) =
      Except.ok euclideanDistance :=
  distance_canonicalizer_idempotent.2 (.str "l2") euclideanDistance
    (by decide)

/-- C5: with `average == "micro"` recall@k is the mean over all queries
of the indicator "any of the first k mask entries is true" — that is,
the number of hit queries over the number of queries; 7 hits out of 10
queries give exactly 0.7. -/
theorem recall_micro_mean (k : Nat) (query_labels : List ℤ)
    (match_mask : List (List Bool)) :
    RecallAtK_compute k "micro" query_labels match_mask =
      Except.ok ((hitCount k match_mask : ℚ) / match_mask.length) ∧
    RecallAtK_compute 1 "micro" [0, 0, 0, 0, 0, 0, 0, 1, 1, 1]
      [[true], [true], [true], [true], [true], [true], [true],
       [false], [false], [false]] = Except.ok (7 / 10) := by
  constructor
  · simp only [RecallAtK_compute, if_pos rfl, qmean, hitCount]
    rw [indicator_sum_eq_count]
    simp
  · simp [RecallAtK_compute, qmean]
    norm_num

/-- C4: with `average == "macro"` recall@k is the unweighted mean, over
the distinct labels, of the per-label mean of the per-query indicator;
two classes with 3 and 2 queries and hit-rates 1.0 and 0.5 give exactly
0.75. -/
theorem recall_macro_unweighted (k : Nat) (query_labels : List ℤ)
    (match_mask : List (List Bool)) :
    RecallAtK_compute k "macro" query_labels match_mask =
      Except.ok (qmean ((uniqueLabels query_labels).map
        (fun label => perLabelHitRate k label query_labels match_mask))) ∧
    RecallAtK_compute 1 "macro" [0, 0, 0, 1, 1]
      [[true], [true], [true], [true], [false]] = Except.ok (3 / 4) := by
  constructor
  · simp only [RecallAtK_compute]
    rw [if_neg (by decide)]
    simp only [if_true, qmean, perLabelHitRate, List.length_map]
  · simp [RecallAtK_compute, uniqueLabels, qmean]
    norm_num

/-- Reading below a removed position with `getD` is unchanged. -/
theorem getD_eraseIdx_of_lt {α : Type _} (l : List α) (i j : Nat) (d : α)
    (h : j < i) : (l.eraseIdx i).getD j d = l.getD j d := by
  simp [List.getD_eq_getElem?_getD, List.getElem?_eraseIdx_of_lt l i j h]

/-- Reading at or above a removed position with `getD` shifts by one. -/
theorem getD_eraseIdx_of_ge {α : Type _} (l : List α) (i j : Nat) (d : α)
    (h : i ≤ j) : (l.eraseIdx i).getD j d = l.getD (j + 1) d := by
  simp [List.getD_eq_getElem?_getD, List.getElem?_eraseIdx_of_ge l i j h]

/-- Erasing the last index drops the last element. -/
theorem eraseIdx_length_sub_one {α : Type _} (l : List α) :
    l.eraseIdx (l.length - 1) = l.dropLast := by
  cases l with
  | nil => rfl
  | cons a t =>
    rw [List.eraseIdx_eq_take_drop_succ, List.dropLast_eq_take]
    have h : (a :: t).length - 1 + 1 = (a :: t).length := by simp
    rw [h, List.drop_length, List.append_nil]

/-- C3: removing position `i` from a store of size `N` deletes position
`i` from examples and labels together and shifts every later position
down by one; removing position 0 and then the new last position from an
`N`-item store leaves exactly the middle `N - 2` items in order. -/
theorem indexer_remove_shift (s : Store) (i : Nat)
    (hlen : s.examples.length = s.labels.length)
    (hi : i < s.labels.length) :
    (∃ s' : Store, Indexer_remove s i = Except.ok s' ∧
      s'.examples = s.examples.eraseIdx i ∧
      s'.labels = s.labels.eraseIdx i ∧
      s'.labels.length + 1 = s.labels.length ∧
      s'.examples.length + 1 = s.examples.length ∧
      (∀ j, j < i → s'.examples.getD j [] = s.examples.getD j [] ∧
        s'.labels.getD j 0 = s.labels.getD j 0) ∧
      (∀ j, i ≤ j → s'.examples.getD j [] = s.examples.getD (j + 1) [] ∧
        s'.labels.getD j 0 = s.labels.getD (j + 1) 0)) ∧
    (2 ≤ s.labels.length →
      ∃ s1 s2 : Store, Indexer_remove s 0 = Except.ok s1 ∧
        Indexer_remove s1 (s1.labels.length - 1) = Except.ok s2 ∧
        s2.examples = (s.examples.drop 1).dropLast ∧
        s2.labels = (s.labels.drop 1).dropLast) := by
  constructor
  · refine ⟨⟨s.examples.eraseIdx i, s.labels.eraseIdx i⟩, ?_, rfl, rfl,
      ?_, ?_, ?_, ?_⟩
    · simp [Indexer_remove, hi]
    · simp only [List.length_eraseIdx_of_lt hi]
      omega
    · simp only [List.length_eraseIdx_of_lt (hlen ▸ hi)]
      omega
    · exact fun j hj => ⟨getD_eraseIdx_of_lt _ _ _ _ hj,
        getD_eraseIdx_of_lt _ _ _ _ hj⟩
    · exact fun j hj => ⟨getD_eraseIdx_of_ge _ _ _ _ hj,
        getD_eraseIdx_of_ge _ _ _ _ hj⟩
  · intro h2
    have h0 : (0 : Nat) < s.labels.length := by omega
    have htl : s.labels.tail.length = s.labels.length - 1 := by simp
    have hte : s.examples.tail.length = s.labels.length - 1 := by
      simp [hlen]
    refine ⟨⟨s.examples.tail, s.labels.tail⟩,
      ⟨s.examples.tail.dropLast, s.labels.tail.dropLast⟩, ?_, ?_, ?_, ?_⟩
    · simp only [Indexer_remove]
      rw [if_pos h0]
      simp [List.eraseIdx_zero]
    · simp only [Indexer_remove]
      rw [if_pos (by rw [htl]; omega)]
      have hpe : s.labels.tail.length - 1 = s.examples.tail.length - 1 := by
        rw [htl, hte]
      simp only [Except.ok.injEq, Store.mk.injEq]
      constructor
      · rw [hpe, eraseIdx_length_sub_one]
      · rw [eraseIdx_length_sub_one]
    · rw [List.drop_one]
    · rw [List.drop_one]

/-- Witness for C3 on a concrete three-item store. -/
theorem indexer_remove_shift_witness :
    [[(1 : ℚ)], [2], [3]].length = [(10 : ℤ), 20, 30].length ∧
    (1 : Nat) < [(10 : ℤ), 20, 30].length ∧
    ((∃ s' : Store,
      Indexer_remove ⟨[[(1 : ℚ)], [2], [3]], [(10 : ℤ), 20, 30]⟩ 1 =
        Except.ok s' ∧
      s'.examples = [[(1 : ℚ)], [2], [3]].eraseIdx 1 ∧
      s'.labels = [(10 : ℤ), 20, 30].eraseIdx 1 ∧
      s'.labels.length + 1 = [(10 : ℤ), 20, 30].length ∧
      s'.examples.length + 1 = [[(1 : ℚ)], [2], [3]].length ∧
      (∀ j, j < 1 → s'.examples.getD j [] = [[(1 : ℚ)], [2], [3]].getD j [] ∧
        s'.labels.getD j 0 = [(10 : ℤ), 20, 30].getD j 0) ∧
      (∀ j, 1 ≤ j →
        s'.examples.getD j [] = [[(1 : ℚ)], [2], [3]].getD (j + 1) [] ∧
        s'.labels.getD j 0 = [(10 : ℤ), 20, 30].getD (j + 1) 0)) ∧
    (2 ≤ [(10 : ℤ), 20, 30].length →
      ∃ s1 s2 : Store,
        Indexer_remove ⟨[[(1 : ℚ)], [2], [3]], [(10 : ℤ), 20, 30]⟩ 0 =
          Except.ok s1 ∧
        Indexer_remove s1 (s1.labels.length - 1) = Except.ok s2 ∧
        s2.examples = ([[(1 : ℚ)], [2], [3]].drop 1).dropLast ∧
        s2.labels = ([(10 : ℤ), 20, 30].drop 1).dropLast)) :=
  ⟨by decide, by decide,
    indexer_remove_shift ⟨[[(1 : ℚ)], [2], [3]], [(10 : ℤ), 20, 30]⟩ 1
      (by decide) (by decide)⟩

/-- The row `i` of the inner-product kernel output is the singleton
holding the sum over `k` of `dot(e_i, e_k)`. -/
theorem innerProduct_call_getD (emb : List (List ℚ)) (i : Nat)
    (hi : i < emb.length) :
    (innerProduct_call emb).getD i [] =
      [∑ k ∈ Finset.range emb.length,
        dot (emb.getD i []) (emb.getD k [])] := by
  have hi' : i < (innerProduct_call emb).length := by
    simpa [innerProduct_call] using hi
  have hgd : emb.getD i [] = emb[i] := by
    rw [List.getD_eq_getElem?_getD, List.getElem?_eq_getElem hi]
    rfl
  rw [List.getD_eq_getElem?_getD, List.getElem?_eq_getElem hi']
  simp only [innerProduct_call, List.getElem_map, Option.getD_some]
  rw [map_sum_eq_range_sum, hgd]

/-- C8: every entry of the Euclidean, squared-Euclidean, cosine and
Manhattan kernel outputs is nonnegative (entries read with `getD`,
whose defaults are likewise nonnegative). -/
theorem kernels_nonneg (emb : List (List ℚ)) (i j : Nat) :
    (0 : ℝ) ≤ ((euclidean_call emb).getD i []).getD j 0 ∧
    (0 : ℚ) ≤ ((squaredEuclidean_call emb).getD i []).getD j 0 ∧
    (0 : ℚ) ≤ ((cosine_call emb).getD i []).getD j 0 ∧
    (0 : ℚ) ≤ ((manhattan_call emb).getD i []).getD j 0 := by
  refine ⟨matrix_getD_nonneg _ ?_ i j, matrix_getD_nonneg _ ?_ i j,
    matrix_getD_nonneg _ ?_ i j, matrix_getD_nonneg _ ?_ i j⟩
  · rintro r hr v hv
    simp only [euclidean_call, List.mem_map] at hr
    obtain ⟨ei, -, rfl⟩ := hr
    simp only [List.mem_map] at hv
    obtain ⟨ej, -, rfl⟩ := hv
    refine mul_nonneg (Real.sqrt_nonneg _) ?_
    split
    · norm_num
    · rfl
  · rintro r hr v hv
    simp only [squaredEuclidean_call, List.mem_map] at hr
    obtain ⟨ei, -, rfl⟩ := hr
    simp only [List.mem_map] at hv
    obtain ⟨ej, -, rfl⟩ := hv
    exact le_max_right _ _
  · rintro r hr v hv
    simp only [cosine_call, List.mem_map] at hr
    obtain ⟨ei, -, rfl⟩ := hr
    simp only [List.mem_map] at hv
    obtain ⟨ej, -, rfl⟩ := hv
    exact le_max_right _ _
  · rintro r hr v hv
    simp only [manhattan_call, List.mem_map] at hr
    obtain ⟨ei, -, rfl⟩ := hr
    simp only [List.mem_map] at hv
    obtain ⟨ej, -, rfl⟩ := hv
    exact zipWith_abs_sum_nonneg _ _

/-- C7: for every batch, row `i` of the inner-product kernel holds the
single row-summed value `sum_k dot(e_i, e_k)`; the value is unbounded
(for every bound some batch exceeds it), so it is not a bounded pairwise
similarity. -/
theorem innerProduct_row_summed (emb : List (List ℚ)) (i : Nat)
    (hi : i < emb.length) :
    ((innerProduct_call emb).getD i [] =
      [∑ k ∈ Finset.range emb.length,
        dot (emb.getD i []) (emb.getD k [])]) ∧
    ∀ B : ℚ, ∃ embB : List (List ℚ),
      B ≤ ((innerProduct_call embB).getD 0 []).getD 0 0 := by
  refine ⟨innerProduct_call_getD emb i hi, ?_⟩
  intro B
  refine ⟨[[max B 1]], ?_⟩
  simp only [innerProduct_call, dot, List.map_cons, List.map_nil,
    List.zipWith_cons_cons, List.zipWith_nil_right, List.sum_cons,
    List.sum_nil, List.getD_cons_zero]
  have h1 : (1 : ℚ) ≤ max B 1 := le_max_right _ _
  have h0 : (0 : ℚ) ≤ max B 1 := le_trans zero_le_one h1
  calc B ≤ max B 1 := le_max_left _ _
    _ ≤ max B 1 * max B 1 := le_mul_of_one_le_left h0 h1
    _ ≤ max B 1 * max B 1 + 0 + 0 := by ring_nf; rfl

/-- Witness for C7 on the two-vector standard basis batch. -/
theorem innerProduct_row_summed_witness :
    (0 : Nat) < [[(1 : ℚ), 0], [0, 1]].length ∧
    (((innerProduct_call [[(1 : ℚ), 0], [0, 1]]).getD 0 [] =
      [∑ k ∈ Finset.range [[(1 : ℚ), 0], [0, 1]].length,
        dot ([[(1 : ℚ), 0], [0, 1]].getD 0 [])
          ([[(1 : ℚ), 0], [0, 1]].getD k [])]) ∧
    ∀ B : ℚ, ∃ embB : List (List ℚ),
      B ≤ ((innerProduct_call embB).getD 0 []).getD 0 0) :=
  ⟨by decide, innerProduct_row_summed [[(1 : ℚ), 0], [0, 1]] 0 (by decide)⟩

/-- Entry `[i][j]` of a pairwise-map matrix, with its shape facts. -/
theorem pair_matrix_entry {β : Type _} (f : List ℚ → List ℚ → β) (z : β)
    (emb : List (List ℚ)) (i j : Nat)
    (hi : i < emb.length) (hj : j < emb.length) :
    (emb.map (fun ei => emb.map (f ei))).length = emb.length ∧
    ((emb.map (fun ei => emb.map (f ei))).getD i []).length = emb.length ∧
    ((emb.map (fun ei => emb.map (f ei))).getD i []).getD j z =
      f (emb.getD i []) (emb.getD j []) := by
  have hi' : i < (emb.map (fun ei => emb.map (f ei))).length := by
    simpa using hi
  have hgd : ∀ (k : Nat) (hk : k < emb.length), emb.getD k [] = emb[k] := by
    intro k hk
    rw [List.getD_eq_getElem?_getD, List.getElem?_eq_getElem hk]
    rfl
  have hgi : (emb.map (fun ei => emb.map (f ei))).getD i [] =
      emb.map (f (emb.getD i [])) := by
    rw [List.getD_eq_getElem?_getD, List.getElem?_eq_getElem hi']
    simp only [List.getElem_map, Option.getD_some, hgd i hi]
  refine ⟨by simp, by rw [hgi]; simp, ?_⟩
  rw [hgi, List.getD_eq_getElem?_getD,
    List.getElem?_eq_getElem (by simpa using hj)]
  simp only [List.getElem_map, Option.getD_some, hgd j hj]

/-- C2: each Euclidean-kernel entry is `sqrt(expansion)` when the
expansion `||e_i||^2 - 2 dot(e_i,e_j) + ||e_j||^2` is at least `1e-18`
and exactly 0 when it is below; on equal-dimension vectors the expansion
is the squared L2 distance, so two embeddings within `1e-18` squared
distance of each other get distance exactly 0. -/
theorem euclidean_eps_policy (emb : List (List ℚ)) (i j : Nat)
    (hi : i < emb.length) (hj : j < emb.length) :
    (((euclidean_call emb).getD i []).getD j 0 =
      if eps ≤ sqExpansion (emb.getD i []) (emb.getD j []) then
        Real.sqrt ((sqExpansion (emb.getD i []) (emb.getD j []) : ℚ) : ℝ)
      else 0) ∧
    ((emb.getD i []).length = (emb.getD j []).length →
      sqExpansion (emb.getD i []) (emb.getD j []) =
        (List.zipWith (fun a b => (a - b) ^ 2)
          (emb.getD i []) (emb.getD j [])).sum) ∧
    ((emb.getD i []).length = (emb.getD j []).length →
      (List.zipWith (fun a b => (a - b) ^ 2)
        (emb.getD i []) (emb.getD j [])).sum < eps →
      ((euclidean_call emb).getD i []).getD j 0 = 0) := by
  have hentry : ((euclidean_call emb).getD i []).getD j 0 =
      euclideanPair (emb.getD i []) (emb.getD j []) := by
    simpa only [euclidean_call, euclideanPair] using
      (pair_matrix_entry
        (fun x y => Real.sqrt ((max (sqExpansion x y) eps : ℚ) : ℝ) *
          (if eps ≤ sqExpansion x y then (1 : ℝ) else 0))
        0 emb i j hi hj).2.2
  have hpolicy : ((euclidean_call emb).getD i []).getD j 0 =
      if eps ≤ sqExpansion (emb.getD i []) (emb.getD j []) then
        Real.sqrt ((sqExpansion (emb.getD i []) (emb.getD j []) : ℚ) : ℝ)
      else 0 := by
    rw [hentry, euclideanPair]
    by_cases hle : eps ≤ sqExpansion (emb.getD i []) (emb.getD j [])
    · rw [if_pos hle, if_pos hle, max_eq_left hle, mul_one]
    · rw [if_neg hle, if_neg hle, mul_zero]
  refine ⟨hpolicy, fun hdim => sqExpansion_eq_sum_sq _ _ hdim, ?_⟩
  intro hdim hlt
  rw [hpolicy, if_neg ?_]
  rw [sqExpansion_eq_sum_sq _ _ hdim]
  exact not_le.mpr hlt

/-- Witness for C2 on the batch `[[0], [1]]` (expansion 1 ≥ eps) — the
theorem applied at concrete indices with its bounds discharged. -/
theorem euclidean_eps_policy_witness :
    (0 : Nat) < [[(0 : ℚ)], [1]].length ∧ (1 : Nat) < [[(0 : ℚ)], [1]].length ∧
    ((((euclidean_call [[(0 : ℚ)], [1]]).getD 0 []).getD 1 0 =
      if eps ≤ sqExpansion ([[(0 : ℚ)], [1]].getD 0 [])
          ([[(0 : ℚ)], [1]].getD 1 []) then
        Real.sqrt ((sqExpansion ([[(0 : ℚ)], [1]].getD 0 [])
          ([[(0 : ℚ)], [1]].getD 1 []) : ℚ) : ℝ)
      else 0) ∧
    (([[(0 : ℚ)], [1]].getD 0 []).length =
        ([[(0 : ℚ)], [1]].getD 1 []).length →
      sqExpansion ([[(0 : ℚ)], [1]].getD 0 []) ([[(0 : ℚ)], [1]].getD 1 []) =
        (List.zipWith (fun a b => (a - b) ^ 2)
          ([[(0 : ℚ)], [1]].getD 0 []) ([[(0 : ℚ)], [1]].getD 1 [])).sum) ∧
    (([[(0 : ℚ)], [1]].getD 0 []).length =
        ([[(0 : ℚ)], [1]].getD 1 []).length →
      (List.zipWith (fun a b => (a - b) ^ 2)
        ([[(0 : ℚ)], [1]].getD 0 []) ([[(0 : ℚ)], [1]].getD 1 [])).sum < eps →
      ((euclidean_call [[(0 : ℚ)], [1]]).getD 0 []).getD 1 0 = 0)) :=
  ⟨by decide, by decide,
    euclidean_eps_policy [[(0 : ℚ)], [1]] 0 1 (by decide) (by decide)⟩

/-- C1 counterexample: on the batch `[[1,0],[0,1]]` (N = 2) the
inner-product kernel — a member of the `DISTANCES` registry — does not
return an N×N matrix: its rows have length 1, not 2. -/
theorem kernel_matrix_counterexample :
    ¬ ∀ row ∈ innerProduct_call [[(1 : ℚ), 0], [0, 1]], row.length = 2 := by
  intro h
  have hmem : [dot [(1 : ℚ), 0] [1, 0] + (dot [(1 : ℚ), 0] [0, 1] + 0)] ∈
      innerProduct_call [[(1 : ℚ), 0], [0, 1]] := by
    simp [innerProduct_call]
  have := h _ hmem
  simp at this

/-- C1 amended: the cosine, squared-Euclidean, Manhattan and Euclidean
kernels each return an N×N matrix whose entry `[i][j]` is that kernel's
pairwise distance between vectors `i` and `j`; the inner-product kernel
instead returns an N×1 column whose row `i` holds the row-summed value
`sum_k dot(e_i, e_k)`. -/
theorem kernels_pairwise_amended (emb : List (List ℚ)) (i j : Nat)
    (hi : i < emb.length) (hj : j < emb.length) :
    ((cosine_call emb).length = emb.length ∧
      ((cosine_call emb).getD i []).length = emb.length ∧
      ((cosine_call emb).getD i []).getD j 0 =
        cosinePair (emb.getD i []) (emb.getD j [])) ∧
    ((squaredEuclidean_call emb).length = emb.length ∧
      ((squaredEuclidean_call emb).getD i []).length = emb.length ∧
      ((squaredEuclidean_call emb).getD i []).getD j 0 =
        squaredEuclideanPair (emb.getD i []) (emb.getD j [])) ∧
    ((manhattan_call emb).length = emb.length ∧
      ((manhattan_call emb).getD i []).length = emb.length ∧
      ((manhattan_call emb).getD i []).getD j 0 =
        manhattanPair (emb.getD i []) (emb.getD j [])) ∧
    ((euclidean_call emb).length = emb.length ∧
      ((euclidean_call emb).getD i []).length = emb.length ∧
      ((euclidean_call emb).getD i []).getD j 0 =
        euclideanPair (emb.getD i []) (emb.getD j [])) ∧
    ((innerProduct_call emb).length = emb.length ∧
      ((innerProduct_call emb).getD i []).length = 1 ∧
      ((innerProduct_call emb).getD i []).getD 0 0 =
        ∑ k ∈ Finset.range emb.length,
          dot (emb.getD i []) (emb.getD k [])) := by
  refine ⟨?_, ?_, ?_, ?_, by simp [innerProduct_call], ?_, ?_⟩
  · simpa only [cosine_call, cosinePair] using
      pair_matrix_entry (fun x y => max (1 - dot x y) 0) 0 emb i j hi hj
  · simpa only [squaredEuclidean_call, squaredEuclideanPair] using
      pair_matrix_entry (fun x y => max (sqExpansion x y) 0) 0 emb i j hi hj
  · simpa only [manhattan_call, manhattanPair] using
      pair_matrix_entry
        (fun x y => (List.zipWith (fun a b => |a - b|) x y).sum) 0
        emb i j hi hj
  · simpa only [euclidean_call, euclideanPair] using
      pair_matrix_entry
        (fun x y => Real.sqrt ((max (sqExpansion x y) eps : ℚ) : ℝ) *
          (if eps ≤ sqExpansion x y then (1 : ℝ) else 0))
        0 emb i j hi hj
  · rw [innerProduct_call_getD emb i hi]
    rfl
  · rw [innerProduct_call_getD emb i hi]
    rfl

/-- Witness for the amended C1 on the two-vector standard basis batch. -/
theorem kernels_pairwise_amended_witness :
    (0 : Nat) < [[(1 : ℚ), 0], [0, 1]].length ∧
    (1 : Nat) < [[(1 : ℚ), 0], [0, 1]].length ∧
    (((cosine_call [[(1 : ℚ), 0], [0, 1]]).getD 0 []).getD 1 0 =
      cosinePair ([[(1 : ℚ), 0], [0, 1]].getD 0 [])
        ([[(1 : ℚ), 0], [0, 1]].getD 1 [])) ∧
    (((manhattan_call [[(1 : ℚ), 0], [0, 1]]).getD 0 []).getD 1 0 =
      manhattanPair ([[(1 : ℚ), 0], [0, 1]].getD 0 [])
        ([[(1 : ℚ), 0], [0, 1]].getD 1 [])) ∧
    ((innerProduct_call [[(1 : ℚ), 0], [0, 1]]).getD 0 []).length = 1 := by
  have h := kernels_pairwise_amended [[(1 : ℚ), 0], [0, 1]] 0 1
    (by decide) (by decide)
  exact ⟨by decide, by decide, h.1.2.2, h.2.2.1.2.2, h.2.2.2.2.2.1⟩

end Similarity
